import Mathlib

/-
Verification of `src/meta.rs` (the `MetaTable` of the `shred` crate).

Shallow embedding conventions:

* `TypeId` is modelled as `Nat` (a process-stable type tag, `std::any::TypeId`).
* A store-resident value (`Resource` behind `&Resource`) is modelled as a
  `Value`: its runtime concrete type tag (`Any::get_type_id`) plus its data.
  References are modelled by the referent itself: a `&'a Resource` is the
  `Value` it points at, and mutation through a `&mut` is an explicit update.
* `Fat` is the captured vtable word of `struct Fat(usize)`.  In Rust the
  vtable of `&R as &dyn T` is determined by the concrete type `R` (for a
  fixed trait `T`); `vtableOf` models that per-type vtable word, and
  `Fat.from_ptr` reads it off the sample reference produced by
  `CastFrom::cast` (which is an identity upcast of the referent).
* `Fat.create_ptr` reassembles a trait object `TObj` from a data pointer
  (modelled by the pointed-at data) and the stored vtable word; dynamic
  dispatch through a `TObj` applies an `Interface` implementation selected
  by the vtable word.
* `FxHashMap<TypeId, usize>` is modelled as an association list with
  first-match lookup; `register` only ever inserts a binding for a key that
  is not yet present, so append-on-vacant matches hash-map semantics.
* `Resources::get_mut_raw` is the store's type-indexed lookup (at most one
  value per type), modelled as association-list lookup.
-/

/-- A runtime type tag, modelling `std::any::TypeId`. -/
abbrev TypeId := Nat

/-- A store-resident value: its concrete type tag and its current data. -/
structure Value where
  ty : TypeId
  data : Int
deriving DecidableEq, Repr

/-- The vtable word of a trait object built for concrete type `ty`
(determined by the concrete type, for the fixed trait `T`). -/
def vtableOf (ty : TypeId) : Nat := ty

/-- `CastFrom::cast`: an upcast, identity on the referent. -/
def Value.cast (v : Value) : Value := v

/-- The captured second word of a fat pointer: `struct Fat(usize)`. -/
structure Fat where
  vtable : Nat
deriving DecidableEq, Repr

/-- A trait object reference `&T`: the pair written by `Fat::create_ptr`,
a data pointer (modelled by the pointed-at data) and a vtable word. -/
structure TObj where
  data : Int
  vtable : Nat
deriving DecidableEq, Repr

/-- `Fat::from_ptr`: reads the vtable word out of a fat reference; the word
depends only on the referent's concrete type.  The source also runs
`assert_unsized::<T>()` on every call; that per-call assertion is modelled
explicitly in `Fat.from_ptr_sized` (for an interface whose references
genuinely are two words the assertion always passes, and this unchecked
capture is the behaviour that remains). -/
def Fat.from_ptr (v : Value) : Fat :=
  Fat.mk (vtableOf v.ty)

/-- `Fat::from_ptr` with its `assert_unsized` assertion made explicit: the
source checks `size_of::<&T>() == 2 * size_of::<usize>()` on every vtable
capture; the two abstract sizes are parameters and `none` models the
assertion panic. -/
def Fat.from_ptr_sized (refBytes usizeBytes : Nat) (v : Value) : Option Fat :=
  if refBytes = 2 * usizeBytes then some (Fat.mk (vtableOf v.ty)) else none

/-- `Fat::create_ptr`: reassembles a trait object from a raw data pointer
and the stored vtable word. -/
def Fat.create_ptr (f : Fat) (data : Int) : TObj :=
  TObj.mk data f.vtable

/-- Dynamic dispatch tables: for each vtable word, the implementation of the
trait's methods (mirroring the `Object` trait of the examples/tests:
`method1` observes the data, `method2` combines an argument into it). -/
structure Interface where
  m1 : Nat → Int → Int
  m2 : Nat → Int → Int → Int

/-- Calling `method1` through a trait object: dispatch on the vtable word,
applied to the pointed-at data. -/
def TObj.call1 (iface : Interface) (o : TObj) : Int :=
  iface.m1 o.vtable o.data

/-- Calling `method2` through a trait object: the new data of the referent
after the call. -/
def TObj.call2 (iface : Interface) (o : TObj) (x : Int) : Int :=
  iface.m2 o.vtable x o.data

/-- The external store `Resources`: at most one value per type tag,
modelled as an association list from type tag to stored data. -/
abbrev Resources := List (TypeId × Int)

/-- `Resources::get_mut_raw`: address of the stored value of a given type,
if present (modelled by the stored data itself). -/
def get_mut_raw : Resources → TypeId → Option Int
  | [], _ => none
  | (k, v) :: rest, ty => if k = ty then some v else get_mut_raw rest ty

/-- First-match association-list lookup, modelling `FxHashMap::get`
(and the occupied/vacant test of `FxHashMap::entry`). -/
def lookupId : List (TypeId × Nat) → TypeId → Option Nat
  | [], _ => none
  | (k, v) :: rest, ty => if k = ty then some v else lookupId rest ty

/-- The `MetaTable`: parallel vectors of captured vtables and type tags,
plus the index map. -/
structure MetaTable where
  fat : List Fat
  indices : List (TypeId × Nat)
  tys : List TypeId
deriving DecidableEq, Repr

/-- `Default for MetaTable`: all fields empty. -/
def MetaTable.default : MetaTable :=
  MetaTable.mk [] [] []

/-- `MetaTable::new`: asserts `size_of::<&T>() == 2 * size_of::<usize>()`
(`assert_unsized`), then returns the default table.  The two abstract sizes
are passed as parameters; `none` models the assertion panic. -/
def MetaTable.new (refBytes usizeBytes : Nat) : Option MetaTable :=
  if refBytes = 2 * usizeBytes then some MetaTable.default else none

/-- The body of `MetaTable::register` after the vtable capture: insert or
overwrite the entry for type tag `ty` with witness `f`
(the `Entry::Occupied` / `Entry::Vacant` match). -/
def MetaTable.registerRaw (t : MetaTable) (ty : TypeId) (f : Fat) : MetaTable :=
  let len := t.indices.length
  match lookupId t.indices ty with
  | some ind =>
    MetaTable.mk (t.fat.set ind f) t.indices t.tys
  | none =>
    MetaTable.mk (t.fat ++ [f]) (t.indices ++ [(ty, len)]) (t.tys ++ [ty])

/-- `MetaTable::register`: capture the vtable from a sample reference and
insert or overwrite the entry for the sample's concrete type. -/
def MetaTable.register (t : MetaTable) (r : Value) : MetaTable :=
  t.registerRaw r.ty (Fat.from_ptr (Value.cast r))

/-- `MetaTable::register` with the per-call shape assertion modelled: every
call runs `assert_unsized` inside `Fat::from_ptr`, so registration itself
fails (`none`, the assertion panic) whenever the interface reference shape
is not two words — whatever table it is called on. -/
def MetaTable.register_sized (refBytes usizeBytes : Nat) (t : MetaTable)
    (r : Value) : Option MetaTable :=
  (Fat.from_ptr_sized refBytes usizeBytes (Value.cast r)).map fun f =>
    t.registerRaw r.ty f

/-- `MetaTable::get`: look up the index for the value's runtime type tag and
reassemble the trait object from the value's address and stored vtable. -/
def MetaTable.get (t : MetaTable) (res : Value) : Option TObj :=
  (lookupId t.indices res.ty).map fun ind =>
    (t.fat.getD ind (Fat.mk 0)).create_ptr res.data

/-- `MetaTable::get_mut`: same lookup as `get`, yielding an exclusive trait
object over the same referent. -/
def MetaTable.get_mut (t : MetaTable) (res : Value) : Option TObj :=
  (lookupId t.indices res.ty).map fun ind =>
    (t.fat.getD ind (Fat.mk 0)).create_ptr res.data

/-- Calling `method2` with argument `x` through the result of `get_mut`:
when the lookup succeeds, the referent's data is updated through dynamic
dispatch on the reassembled trait object. -/
def MetaTable.get_mut_call2 (t : MetaTable) (iface : Interface) (res : Value)
    (x : Int) : Option Value :=
  (t.get_mut res).map fun o => Value.mk res.ty (TObj.call2 iface o x)

/-- A table built by a sequence of `registerRaw` calls on the default table
(arbitrary captured witnesses). -/
def MetaTable.ofList (rs : List (TypeId × Fat)) : MetaTable :=
  rs.foldl (fun t p => t.registerRaw p.1 p.2) MetaTable.default

/-- A table built by a sequence of `register` calls on the default table
(witnesses captured from sample values). -/
def MetaTable.ofSamples (vs : List Value) : MetaTable :=
  vs.foldl (fun t v => t.register v) MetaTable.default

/-- The iterator `MetaIter` (its `fat`/`tys` borrows, cursor, and store). -/
structure MetaIter where
  fat : List Fat
  index : Nat
  res : Resources
  tys : List TypeId
deriving DecidableEq, Repr

/-- `<MetaIter as Iterator>::next`: read the type tag at the cursor (if the
cursor is past the list, stop), advance the cursor, ask the store for that
type's value; if present, reassemble the trait object from the stored
vtable, otherwise retry at the next cursor position (`or_else(self.next())`). -/
def MetaIter.next (it : MetaIter) : Option TObj × MetaIter :=
  match h : it.tys[it.index]? with
  | none => (none, MetaIter.mk it.fat (it.index + 1) it.res it.tys)
  | some ty =>
    match get_mut_raw it.res ty with
    | some d =>
      (some ((it.fat.getD it.index (Fat.mk 0)).create_ptr d),
        MetaIter.mk it.fat (it.index + 1) it.res it.tys)
    | none => MetaIter.next (MetaIter.mk it.fat (it.index + 1) it.res it.tys)
termination_by it.tys.length - it.index
decreasing_by
  have hlt : it.index < it.tys.length := by
    by_contra hc
    push_neg at hc
    rw [List.getElem?_eq_none hc] at h
    exact Option.noConfusion h
  omega

/-- The mutable iterator `MetaIterMut`. -/
structure MetaIterMut where
  fat : List Fat
  index : Nat
  res : Resources
  tys : List TypeId
deriving DecidableEq, Repr

/-- `<MetaIterMut as Iterator>::next`: same cursor walk as `MetaIter::next`,
yielding exclusive trait objects. -/
def MetaIterMut.next (it : MetaIterMut) : Option TObj × MetaIterMut :=
  match h : it.tys[it.index]? with
  | none => (none, MetaIterMut.mk it.fat (it.index + 1) it.res it.tys)
  | some ty =>
    match get_mut_raw it.res ty with
    | some d =>
      (some ((it.fat.getD it.index (Fat.mk 0)).create_ptr d),
        MetaIterMut.mk it.fat (it.index + 1) it.res it.tys)
    | none => MetaIterMut.next (MetaIterMut.mk it.fat (it.index + 1) it.res it.tys)
termination_by it.tys.length - it.index
decreasing_by
  have hlt : it.index < it.tys.length := by
    by_contra hc
    push_neg at hc
    rw [List.getElem?_eq_none hc] at h
    exact Option.noConfusion h
  omega

/-- `MetaTable::iter`: a fresh iterator over the table's entries and the
given store, cursor at zero. -/
def MetaTable.iter (t : MetaTable) (res : Resources) : MetaIter :=
  MetaIter.mk t.fat 0 res t.tys

/-- `MetaTable::iter_mut`: the mutable counterpart of `iter`. -/
def MetaTable.iter_mut (t : MetaTable) (res : Resources) : MetaIterMut :=
  MetaIterMut.mk t.fat 0 res t.tys

/-- The full sequence of items an exhausted `MetaIter` yields (the list
collected by repeatedly calling `next` until it returns `None`); the
correspondence with `MetaIter.next` is proved in `MetaIter.toList_next`. -/
def MetaIter.toList (it : MetaIter) : List TObj :=
  match h : it.tys[it.index]? with
  | none => []
  | some ty =>
    match get_mut_raw it.res ty with
    | some d =>
      (it.fat.getD it.index (Fat.mk 0)).create_ptr d ::
        MetaIter.toList (MetaIter.mk it.fat (it.index + 1) it.res it.tys)
    | none => MetaIter.toList (MetaIter.mk it.fat (it.index + 1) it.res it.tys)
termination_by it.tys.length - it.index
decreasing_by
  all_goals
    have hlt : it.index < it.tys.length := by
      by_contra hc
      push_neg at hc
      rw [List.getElem?_eq_none hc] at h
      exact Option.noConfusion h
    omega

/-- The full sequence of items an exhausted `MetaIterMut` yields; the
correspondence with `MetaIterMut.next` is proved in
`MetaIterMut.mut_toList_next`. -/
def MetaIterMut.toList (it : MetaIterMut) : List TObj :=
  match h : it.tys[it.index]? with
  | none => []
  | some ty =>
    match get_mut_raw it.res ty with
    | some d =>
      (it.fat.getD it.index (Fat.mk 0)).create_ptr d ::
        MetaIterMut.toList (MetaIterMut.mk it.fat (it.index + 1) it.res it.tys)
    | none => MetaIterMut.toList (MetaIterMut.mk it.fat (it.index + 1) it.res it.tys)
termination_by it.tys.length - it.index
decreasing_by
  all_goals
    have hlt : it.index < it.tys.length := by
      by_contra hc
      push_neg at hc
      rw [List.getElem?_eq_none hc] at h
      exact Option.noConfusion h
    omega

/-- The internal consistency invariant of the table (claim C9): `fat` and
`tys` have equal length, that length is the size of the index map, `tys`
holds no duplicate type tag, and the index map sends the tag at position
`i` of `tys` back to `i`. -/
structure MetaTable.Inv (t : MetaTable) : Prop where
  fat_tys : t.fat.length = t.tys.length
  ind_tys : t.indices.length = t.tys.length
  nodup : t.tys.Nodup
  idx : ∀ i ty, t.tys[i]? = some ty → lookupId t.indices ty = some i

/-- Converse direction of the index map: every binding points back into
`tys` (holds for every table reachable by registrations). -/
def MetaTable.Rev (t : MetaTable) : Prop :=
  ∀ ty i, lookupId t.indices ty = some i → t.tys[i]? = some ty

/-- The stored witness at every registered tag is that tag's vtable word
(holds for tables built by `register` from sample values). -/
def MetaTable.FatOk (t : MetaTable) : Prop :=
  ∀ ty i, lookupId t.indices ty = some i → t.fat.getD i (Fat.mk 0) = Fat.mk (vtableOf ty)

/-! Lookup lemmas for the association-list model of `FxHashMap`. -/

theorem lookupId_nil (ty : TypeId) : lookupId [] ty = none := rfl

theorem lookupId_cons (k : TypeId) (v : Nat) (rest : List (TypeId × Nat)) (ty : TypeId) :
    lookupId ((k, v) :: rest) ty = if k = ty then some v else lookupId rest ty := rfl

theorem lookupId_append_some (l l2 : List (TypeId × Nat)) (ty : TypeId) (v : Nat)
    (h : lookupId l ty = some v) : lookupId (l ++ l2) ty = some v := by
  induction l with
  | nil => exact Option.noConfusion h
  | cons p rest ih =>
    obtain ⟨k, w⟩ := p
    rw [lookupId_cons] at h
    rw [List.cons_append, lookupId_cons]
    by_cases hk : k = ty
    · rw [if_pos hk] at h ⊢; exact h
    · rw [if_neg hk] at h ⊢; exact ih h

theorem lookupId_append_none (l l2 : List (TypeId × Nat)) (ty : TypeId)
    (h : lookupId l ty = none) : lookupId (l ++ l2) ty = lookupId l2 ty := by
  induction l with
  | nil => rfl
  | cons p rest ih =>
    obtain ⟨k, w⟩ := p
    rw [lookupId_cons] at h
    rw [List.cons_append, lookupId_cons]
    by_cases hk : k = ty
    · rw [if_pos hk] at h; exact Option.noConfusion h
    · rw [if_neg hk] at h ⊢; exact ih h

/-! Case lemmas for `MetaTable.registerRaw`. -/

theorem MetaTable.registerRaw_occupied (t : MetaTable) (ty : TypeId) (f : Fat)
    (ind : Nat) (h : lookupId t.indices ty = some ind) :
    t.registerRaw ty f = MetaTable.mk (t.fat.set ind f) t.indices t.tys := by
  unfold MetaTable.registerRaw
  rw [h]

theorem MetaTable.registerRaw_vacant (t : MetaTable) (ty : TypeId) (f : Fat)
    (h : lookupId t.indices ty = none) :
    t.registerRaw ty f =
      MetaTable.mk (t.fat ++ [f]) (t.indices ++ [(ty, t.indices.length)])
        (t.tys ++ [ty]) := by
  unfold MetaTable.registerRaw
  rw [h]

theorem MetaTable.lookup_registerRaw_some (t : MetaTable) (ty ty2 : TypeId) (f : Fat)
    (i : Nat) (h : lookupId t.indices ty2 = some i) :
    lookupId (t.registerRaw ty f).indices ty2 = some i := by
  rcases hl : lookupId t.indices ty with hnone | ind
  · rw [MetaTable.registerRaw_vacant t ty f hl]
    exact lookupId_append_some _ _ _ _ h
  · rw [MetaTable.registerRaw_occupied t ty f ind hl]
    exact h

theorem MetaTable.lookup_registerRaw_ne (t : MetaTable) (ty ty2 : TypeId) (f : Fat)
    (hne : ty2 ≠ ty) :
    lookupId (t.registerRaw ty f).indices ty2 = lookupId t.indices ty2 := by
  rcases hl : lookupId t.indices ty with hnone | ind
  · rw [MetaTable.registerRaw_vacant t ty f hl]
    rcases h2 : lookupId t.indices ty2 with hnone2 | j
    · rw [lookupId_append_none _ _ _ h2, lookupId_cons, if_neg (fun he => hne he.symm)]
      rfl
    · exact lookupId_append_some _ _ _ _ h2
  · rw [MetaTable.registerRaw_occupied t ty f ind hl]

theorem MetaTable.lookup_registerRaw_self_isSome (t : MetaTable) (ty : TypeId) (f : Fat) :
    (lookupId (t.registerRaw ty f).indices ty).isSome := by
  rcases hl : lookupId t.indices ty with hnone | ind
  · rw [MetaTable.registerRaw_vacant t ty f hl]
    rw [lookupId_append_none _ _ _ hl, lookupId_cons, if_pos rfl]
    rfl
  · rw [MetaTable.registerRaw_occupied t ty f ind hl]
    rw [hl]
    rfl

/-! Step lemmas for the iterators. -/

theorem MetaIter.next_exhausted (it : MetaIter) (h : it.tys.length ≤ it.index) :
    it.next = (none, MetaIter.mk it.fat (it.index + 1) it.res it.tys) := by
  rw [MetaIter.next.eq_def]
  split
  · rfl
  next ty hty =>
    rw [List.getElem?_eq_none h] at hty
    exact Option.noConfusion hty

theorem MetaIter.next_present (fat : List Fat) (i : Nat) (res : Resources)
    (tys : List TypeId) (ty : TypeId) (d : Int)
    (h1 : tys[i]? = some ty) (h2 : get_mut_raw res ty = some d) :
    MetaIter.next (MetaIter.mk fat i res tys) =
      (some ((fat.getD i (Fat.mk 0)).create_ptr d),
        MetaIter.mk fat (i + 1) res tys) := by
  rw [MetaIter.next.eq_def]
  split
  next hty => simp only [] at hty; rw [h1] at hty; exact Option.noConfusion hty
  next ty2 hty =>
    simp only [] at hty
    rw [h1] at hty
    cases hty
    split
    next d2 hd => rw [h2] at hd; cases hd; rfl
    next hd => rw [h2] at hd; exact Option.noConfusion hd

theorem MetaIter.next_skip (fat : List Fat) (i : Nat) (res : Resources)
    (tys : List TypeId) (ty : TypeId)
    (h1 : tys[i]? = some ty) (h2 : get_mut_raw res ty = none) :
    MetaIter.next (MetaIter.mk fat i res tys) =
      MetaIter.next (MetaIter.mk fat (i + 1) res tys) := by
  rw [MetaIter.next.eq_def]
  split
  next hty => simp only [] at hty; rw [h1] at hty; exact Option.noConfusion hty
  next ty2 hty =>
    simp only [] at hty
    rw [h1] at hty
    cases hty
    split
    next d2 hd => rw [h2] at hd; exact Option.noConfusion hd
    next hd => rfl

theorem MetaIterMut.mut_next_exhausted (it : MetaIterMut) (h : it.tys.length ≤ it.index) :
    it.next = (none, MetaIterMut.mk it.fat (it.index + 1) it.res it.tys) := by
  rw [MetaIterMut.next.eq_def]
  split
  · rfl
  next ty hty =>
    rw [List.getElem?_eq_none h] at hty
    exact Option.noConfusion hty

theorem MetaIterMut.mut_next_present (fat : List Fat) (i : Nat) (res : Resources)
    (tys : List TypeId) (ty : TypeId) (d : Int)
    (h1 : tys[i]? = some ty) (h2 : get_mut_raw res ty = some d) :
    MetaIterMut.next (MetaIterMut.mk fat i res tys) =
      (some ((fat.getD i (Fat.mk 0)).create_ptr d),
        MetaIterMut.mk fat (i + 1) res tys) := by
  rw [MetaIterMut.next.eq_def]
  split
  next hty => simp only [] at hty; rw [h1] at hty; exact Option.noConfusion hty
  next ty2 hty =>
    simp only [] at hty
    rw [h1] at hty
    cases hty
    split
    next d2 hd => rw [h2] at hd; cases hd; rfl
    next hd => rw [h2] at hd; exact Option.noConfusion hd

theorem MetaIterMut.mut_next_skip (fat : List Fat) (i : Nat) (res : Resources)
    (tys : List TypeId) (ty : TypeId)
    (h1 : tys[i]? = some ty) (h2 : get_mut_raw res ty = none) :
    MetaIterMut.next (MetaIterMut.mk fat i res tys) =
      MetaIterMut.next (MetaIterMut.mk fat (i + 1) res tys) := by
  rw [MetaIterMut.next.eq_def]
  split
  next hty => simp only [] at hty; rw [h1] at hty; exact Option.noConfusion hty
  next ty2 hty =>
    simp only [] at hty
    rw [h1] at hty
    cases hty
    split
    next d2 hd => rw [h2] at hd; exact Option.noConfusion hd
    next hd => rfl

/-! Master lemmas about the iterator cursors. -/

theorem MetaIter.next_spec (it : MetaIter) :
    (it.next).2.fat = it.fat ∧ (it.next).2.res = it.res ∧ (it.next).2.tys = it.tys ∧
    it.index < (it.next).2.index ∧
    ((it.next).1 = none → it.tys.length < (it.next).2.index) := by
  obtain ⟨fat, i, res, tys⟩ := it
  rcases le_or_lt tys.length i with hle | hlt
  · rw [MetaIter.next_exhausted _ hle]
    exact ⟨rfl, rfl, rfl, Nat.lt_succ_self i, fun _ => Nat.lt_succ_of_le hle⟩
  · have hty := List.getElem?_eq_getElem hlt
    rcases hd : get_mut_raw res tys[i] with _ | d
    · rw [MetaIter.next_skip fat i res tys tys[i] hty hd]
      have ih := MetaIter.next_spec (MetaIter.mk fat (i + 1) res tys)
      have h4 : i + 1 < ((MetaIter.next (MetaIter.mk fat (i + 1) res tys)).2).index :=
        ih.2.2.2.1
      exact ⟨ih.1, ih.2.1, ih.2.2.1, Nat.lt_of_le_of_lt (Nat.le_succ i) h4,
        ih.2.2.2.2⟩
    · rw [MetaIter.next_present fat i res tys tys[i] d hty hd]
      exact ⟨rfl, rfl, rfl, Nat.lt_succ_self i,
        fun hc => Option.noConfusion hc⟩
termination_by it.tys.length - it.index
decreasing_by
  try simp only []
  omega

theorem MetaIterMut.mut_next_spec (it : MetaIterMut) :
    (it.next).2.fat = it.fat ∧ (it.next).2.res = it.res ∧ (it.next).2.tys = it.tys ∧
    it.index < (it.next).2.index ∧
    ((it.next).1 = none → it.tys.length < (it.next).2.index) := by
  obtain ⟨fat, i, res, tys⟩ := it
  rcases le_or_lt tys.length i with hle | hlt
  · rw [MetaIterMut.mut_next_exhausted _ hle]
    exact ⟨rfl, rfl, rfl, Nat.lt_succ_self i, fun _ => Nat.lt_succ_of_le hle⟩
  · have hty := List.getElem?_eq_getElem hlt
    rcases hd : get_mut_raw res tys[i] with _ | d
    · rw [MetaIterMut.mut_next_skip fat i res tys tys[i] hty hd]
      have ih := MetaIterMut.mut_next_spec (MetaIterMut.mk fat (i + 1) res tys)
      have h4 : i + 1 < ((MetaIterMut.next (MetaIterMut.mk fat (i + 1) res tys)).2).index :=
        ih.2.2.2.1
      exact ⟨ih.1, ih.2.1, ih.2.2.1, Nat.lt_of_le_of_lt (Nat.le_succ i) h4,
        ih.2.2.2.2⟩
    · rw [MetaIterMut.mut_next_present fat i res tys tys[i] d hty hd]
      exact ⟨rfl, rfl, rfl, Nat.lt_succ_self i,
        fun hc => Option.noConfusion hc⟩
termination_by it.tys.length - it.index
decreasing_by
  try simp only []
  omega

/-! Step lemmas for the collected sequences. -/

theorem MetaIter.toList_exhausted (it : MetaIter) (h : it.tys.length ≤ it.index) :
    it.toList = [] := by
  rw [MetaIter.toList.eq_def]
  split
  · rfl
  next ty hty =>
    rw [List.getElem?_eq_none h] at hty
    exact Option.noConfusion hty

theorem MetaIter.toList_present (fat : List Fat) (i : Nat) (res : Resources)
    (tys : List TypeId) (ty : TypeId) (d : Int)
    (h1 : tys[i]? = some ty) (h2 : get_mut_raw res ty = some d) :
    MetaIter.toList (MetaIter.mk fat i res tys) =
      (fat.getD i (Fat.mk 0)).create_ptr d ::
        MetaIter.toList (MetaIter.mk fat (i + 1) res tys) := by
  rw [MetaIter.toList.eq_def]
  split
  next hty => simp only [] at hty; rw [h1] at hty; exact Option.noConfusion hty
  next ty2 hty =>
    simp only [] at hty
    rw [h1] at hty
    cases hty
    split
    next d2 hd => rw [h2] at hd; cases hd; rfl
    next hd => rw [h2] at hd; exact Option.noConfusion hd

theorem MetaIter.toList_skip (fat : List Fat) (i : Nat) (res : Resources)
    (tys : List TypeId) (ty : TypeId)
    (h1 : tys[i]? = some ty) (h2 : get_mut_raw res ty = none) :
    MetaIter.toList (MetaIter.mk fat i res tys) =
      MetaIter.toList (MetaIter.mk fat (i + 1) res tys) := by
  rw [MetaIter.toList.eq_def]
  split
  next hty => simp only [] at hty; rw [h1] at hty; exact Option.noConfusion hty
  next ty2 hty =>
    simp only [] at hty
    rw [h1] at hty
    cases hty
    split
    next d2 hd => rw [h2] at hd; exact Option.noConfusion hd
    next hd => rfl

theorem MetaIterMut.mut_toList_exhausted (it : MetaIterMut) (h : it.tys.length ≤ it.index) :
    it.toList = [] := by
  rw [MetaIterMut.toList.eq_def]
  split
  · rfl
  next ty hty =>
    rw [List.getElem?_eq_none h] at hty
    exact Option.noConfusion hty

theorem MetaIterMut.mut_toList_present (fat : List Fat) (i : Nat) (res : Resources)
    (tys : List TypeId) (ty : TypeId) (d : Int)
    (h1 : tys[i]? = some ty) (h2 : get_mut_raw res ty = some d) :
    MetaIterMut.toList (MetaIterMut.mk fat i res tys) =
      (fat.getD i (Fat.mk 0)).create_ptr d ::
        MetaIterMut.toList (MetaIterMut.mk fat (i + 1) res tys) := by
  rw [MetaIterMut.toList.eq_def]
  split
  next hty => simp only [] at hty; rw [h1] at hty; exact Option.noConfusion hty
  next ty2 hty =>
    simp only [] at hty
    rw [h1] at hty
    cases hty
    split
    next d2 hd => rw [h2] at hd; cases hd; rfl
    next hd => rw [h2] at hd; exact Option.noConfusion hd

theorem MetaIterMut.mut_toList_skip (fat : List Fat) (i : Nat) (res : Resources)
    (tys : List TypeId) (ty : TypeId)
    (h1 : tys[i]? = some ty) (h2 : get_mut_raw res ty = none) :
    MetaIterMut.toList (MetaIterMut.mk fat i res tys) =
      MetaIterMut.toList (MetaIterMut.mk fat (i + 1) res tys) := by
  rw [MetaIterMut.toList.eq_def]
  split
  next hty => simp only [] at hty; rw [h1] at hty; exact Option.noConfusion hty
  next ty2 hty =>
    simp only [] at hty
    rw [h1] at hty
    cases hty
    split
    next d2 hd => rw [h2] at hd; exact Option.noConfusion hd
    next hd => rfl

/-- The collected sequence is exactly what repeated `next` calls produce. -/
theorem MetaIter.toList_next (it : MetaIter) :
    it.toList =
      (match it.next with
      | (none, _) => []
      | (some o, it2) => o :: it2.toList) := by
  obtain ⟨fat, i, res, tys⟩ := it
  rcases le_or_lt tys.length i with hle | hlt
  · rw [MetaIter.toList_exhausted _ hle, MetaIter.next_exhausted _ hle]
  · have hty := List.getElem?_eq_getElem hlt
    rcases hd : get_mut_raw res tys[i] with _ | d
    · rw [MetaIter.toList_skip fat i res tys tys[i] hty hd,
        MetaIter.next_skip fat i res tys tys[i] hty hd]
      exact MetaIter.toList_next (MetaIter.mk fat (i + 1) res tys)
    · rw [MetaIter.toList_present fat i res tys tys[i] d hty hd,
        MetaIter.next_present fat i res tys tys[i] d hty hd]
termination_by it.tys.length - it.index
decreasing_by
  try simp only []
  omega

/-- The collected sequence is exactly what repeated `next` calls produce. -/
theorem MetaIterMut.mut_toList_next (it : MetaIterMut) :
    it.toList =
      (match it.next with
      | (none, _) => []
      | (some o, it2) => o :: it2.toList) := by
  obtain ⟨fat, i, res, tys⟩ := it
  rcases le_or_lt tys.length i with hle | hlt
  · rw [MetaIterMut.mut_toList_exhausted _ hle, MetaIterMut.mut_next_exhausted _ hle]
  · have hty := List.getElem?_eq_getElem hlt
    rcases hd : get_mut_raw res tys[i] with _ | d
    · rw [MetaIterMut.mut_toList_skip fat i res tys tys[i] hty hd,
        MetaIterMut.mut_next_skip fat i res tys tys[i] hty hd]
      exact MetaIterMut.mut_toList_next (MetaIterMut.mk fat (i + 1) res tys)
    · rw [MetaIterMut.mut_toList_present fat i res tys tys[i] d hty hd,
        MetaIterMut.mut_next_present fat i res tys tys[i] d hty hd]
termination_by it.tys.length - it.index
decreasing_by
  try simp only []
  omega

theorem MetaIter.toList_length (it : MetaIter) :
    it.toList.length ≤ it.tys.length - it.index := by
  obtain ⟨fat, i, res, tys⟩ := it
  rcases le_or_lt tys.length i with hle | hlt
  · rw [MetaIter.toList_exhausted _ hle]
    simp
  · have hty := List.getElem?_eq_getElem hlt
    rcases hd : get_mut_raw res tys[i] with _ | d
    · rw [MetaIter.toList_skip fat i res tys tys[i] hty hd]
      have ih2 : (MetaIter.toList (MetaIter.mk fat (i + 1) res tys)).length ≤
          tys.length - (i + 1) :=
        MetaIter.toList_length (MetaIter.mk fat (i + 1) res tys)
      exact Nat.le_trans ih2 (Nat.sub_le_sub_left (Nat.le_succ i) tys.length)
    · rw [MetaIter.toList_present fat i res tys tys[i] d hty hd]
      have ih2 : (MetaIter.toList (MetaIter.mk fat (i + 1) res tys)).length ≤
          tys.length - (i + 1) :=
        MetaIter.toList_length (MetaIter.mk fat (i + 1) res tys)
      show (MetaIter.toList (MetaIter.mk fat (i + 1) res tys)).length + 1 ≤
        tys.length - i
      omega
termination_by it.tys.length - it.index
decreasing_by
  all_goals
    try simp only []
    omega

theorem MetaIterMut.mut_toList_length (it : MetaIterMut) :
    it.toList.length ≤ it.tys.length - it.index := by
  obtain ⟨fat, i, res, tys⟩ := it
  rcases le_or_lt tys.length i with hle | hlt
  · rw [MetaIterMut.mut_toList_exhausted _ hle]
    simp
  · have hty := List.getElem?_eq_getElem hlt
    rcases hd : get_mut_raw res tys[i] with _ | d
    · rw [MetaIterMut.mut_toList_skip fat i res tys tys[i] hty hd]
      have ih2 : (MetaIterMut.toList (MetaIterMut.mk fat (i + 1) res tys)).length ≤
          tys.length - (i + 1) :=
        MetaIterMut.mut_toList_length (MetaIterMut.mk fat (i + 1) res tys)
      exact Nat.le_trans ih2 (Nat.sub_le_sub_left (Nat.le_succ i) tys.length)
    · rw [MetaIterMut.mut_toList_present fat i res tys tys[i] d hty hd]
      have ih2 : (MetaIterMut.toList (MetaIterMut.mk fat (i + 1) res tys)).length ≤
          tys.length - (i + 1) :=
        MetaIterMut.mut_toList_length (MetaIterMut.mk fat (i + 1) res tys)
      show (MetaIterMut.toList (MetaIterMut.mk fat (i + 1) res tys)).length + 1 ≤
        tys.length - i
      omega
termination_by it.tys.length - it.index
decreasing_by
  all_goals
    try simp only []
    omega

/-! Helpers for `List.getD` on the `fat` vector. -/

theorem getD_append_left {α : Type} (l l2 : List α) (i : Nat) (d : α)
    (h : i < l.length) : (l ++ l2).getD i d = l.getD i d := by
  rw [List.getD_eq_getD_get?, List.getD_eq_getD_get?, List.get?_eq_getElem?,
    List.get?_eq_getElem?, List.getElem?_append, if_pos h]

theorem getD_concat_self {α : Type} (l : List α) (a d : α) :
    (l ++ [a]).getD l.length d = a := by
  rw [List.getD_eq_getD_get?, List.get?_eq_getElem?, List.getElem?_concat_length]
  rfl

theorem getD_set_self {α : Type} (l : List α) (i : Nat) (a d : α)
    (h : i < l.length) : (l.set i a).getD i d = a := by
  rw [List.getD_eq_getD_get?, List.get?_eq_getElem?, List.getElem?_set,
    if_pos rfl, if_pos h]
  rfl

theorem getD_set_ne {α : Type} (l : List α) (i j : Nat) (a d : α)
    (hne : i ≠ j) : (l.set i a).getD j d = l.getD j d := by
  rw [List.getD_eq_getD_get?, List.getD_eq_getD_get?, List.get?_eq_getElem?,
    List.get?_eq_getElem?, List.getElem?_set_ne hne]

/-! The registry invariants: established empty, preserved by registration. -/

theorem MetaTable.Inv_default : MetaTable.default.Inv := by
  refine ⟨rfl, rfl, List.nodup_nil, ?_⟩
  intro i ty h
  simp [MetaTable.default] at h

theorem MetaTable.Rev_default : MetaTable.default.Rev := by
  intro ty i h
  exact Option.noConfusion h

theorem MetaTable.FatOk_default : MetaTable.default.FatOk := by
  intro ty i h
  exact Option.noConfusion h

theorem MetaTable.not_mem_of_lookup_none (t : MetaTable) (ty : TypeId)
    (hInv : t.Inv) (h : lookupId t.indices ty = none) : ty ∉ t.tys := by
  intro hmem
  obtain ⟨i, hi⟩ := List.mem_iff_getElem?.mp hmem
  have h2 := hInv.idx i ty hi
  rw [h] at h2
  exact Option.noConfusion h2

theorem MetaTable.Inv_registerRaw (t : MetaTable) (ty : TypeId) (f : Fat)
    (hInv : t.Inv) : (t.registerRaw ty f).Inv := by
  rcases hl : lookupId t.indices ty with _ | ind
  · rw [MetaTable.registerRaw_vacant t ty f hl]
    have hnm : ty ∉ t.tys := MetaTable.not_mem_of_lookup_none t ty hInv hl
    refine ⟨?_, ?_, ?_, ?_⟩
    · simp [hInv.fat_tys]
    · simp [hInv.ind_tys]
    · rw [List.nodup_append]
      refine ⟨hInv.nodup, List.nodup_singleton ty, ?_⟩
      intro a ha hb
      rw [List.mem_singleton] at hb
      subst hb
      exact hnm ha
    · intro i ty2 hi
      simp only [] at hi ⊢
      rw [List.getElem?_append] at hi
      split at hi
      next hilt =>
        exact lookupId_append_some _ _ _ _ (hInv.idx i ty2 hi)
      next hige =>
        push_neg at hige
        obtain ⟨hlt1, heq1⟩ := List.getElem?_eq_some.mp hi
        simp only [List.length_singleton] at hlt1
        have hieq : i = t.tys.length := by omega
        have hty2 : ty2 = ty := by
          subst hieq
          simpa using heq1.symm
        subst hty2
        rw [lookupId_append_none _ _ _ hl, lookupId_cons, if_pos rfl, hInv.ind_tys,
          hieq]
  · rw [MetaTable.registerRaw_occupied t ty f ind hl]
    exact ⟨by simp [List.length_set, hInv.fat_tys], hInv.ind_tys, hInv.nodup, hInv.idx⟩

theorem MetaTable.Rev_registerRaw (t : MetaTable) (ty : TypeId) (f : Fat)
    (hInv : t.Inv) (hRev : t.Rev) : (t.registerRaw ty f).Rev := by
  rcases hl : lookupId t.indices ty with _ | ind
  · rw [MetaTable.registerRaw_vacant t ty f hl]
    intro ty2 i h2
    simp only [] at h2 ⊢
    rcases h3 : lookupId t.indices ty2 with _ | j
    · rw [lookupId_append_none _ _ _ h3, lookupId_cons] at h2
      by_cases he : ty = ty2
      · rw [if_pos he] at h2
        injection h2 with h2i
        subst he
        subst h2i
        rw [hInv.ind_tys, List.getElem?_concat_length]
      · rw [if_neg he] at h2
        exact Option.noConfusion h2
    · rw [lookupId_append_some _ _ _ _ h3] at h2
      injection h2 with h2i
      subst h2i
      have h4 := hRev ty2 j h3
      obtain ⟨hlt1, heq1⟩ := List.getElem?_eq_some.mp h4
      rw [List.getElem?_append, if_pos hlt1]
      exact h4
  · rw [MetaTable.registerRaw_occupied t ty f ind hl]
    intro ty2 i h2
    exact hRev ty2 i h2

theorem MetaTable.FatOk_registerRaw (t : MetaTable) (ty : TypeId) (f : Fat)
    (hInv : t.Inv) (hRev : t.Rev) (hFat : t.FatOk)
    (hf : f = Fat.mk (vtableOf ty)) : (t.registerRaw ty f).FatOk := by
  rcases hl : lookupId t.indices ty with _ | ind
  · rw [MetaTable.registerRaw_vacant t ty f hl]
    intro ty2 i h2
    simp only [] at h2 ⊢
    rcases h3 : lookupId t.indices ty2 with _ | j
    · rw [lookupId_append_none _ _ _ h3, lookupId_cons] at h2
      by_cases he : ty = ty2
      · rw [if_pos he] at h2
        injection h2 with h2i
        subst he
        subst h2i
        subst hf
        have hfl : t.indices.length = t.fat.length := by
          rw [hInv.ind_tys, hInv.fat_tys]
        rw [hfl, getD_concat_self]
      · rw [if_neg he] at h2
        exact Option.noConfusion h2
    · rw [lookupId_append_some _ _ _ _ h3] at h2
      injection h2 with h2i
      subst h2i
      have h4 := hRev ty2 j h3
      obtain ⟨hlt1, heq1⟩ := List.getElem?_eq_some.mp h4
      have hflt : j < t.fat.length := by rw [hInv.fat_tys]; exact hlt1
      rw [getD_append_left _ _ _ _ hflt]
      exact hFat ty2 j h3
  · rw [MetaTable.registerRaw_occupied t ty f ind hl]
    intro ty2 i h2
    simp only [] at h2 ⊢
    by_cases he : ty2 = ty
    · subst he
      rw [hl] at h2
      injection h2 with h2i
      subst h2i
      have h4 := hRev ty2 ind hl
      obtain ⟨hlt1, heq1⟩ := List.getElem?_eq_some.mp h4
      have hflt : ind < t.fat.length := by rw [hInv.fat_tys]; exact hlt1
      rw [getD_set_self _ _ _ _ hflt, hf]
    · have hne : i ≠ ind := by
        intro hcon
        subst hcon
        have h4 := hRev ty2 i h2
        have h5 := hRev ty i hl
        rw [h4] at h5
        injection h5 with h5i
        exact he h5i
      rw [getD_set_ne _ _ _ _ _ (fun hc => hne hc.symm)]
      exact hFat ty2 i h2

/-! Registration sequences: folding `register` / `registerRaw` over lists. -/

theorem MetaTable.lookup_register_some (t : MetaTable) (v : Value) (ty : TypeId)
    (i : Nat) (h : lookupId t.indices ty = some i) :
    lookupId (t.register v).indices ty = some i :=
  MetaTable.lookup_registerRaw_some t v.ty ty (Fat.from_ptr (Value.cast v)) i h

theorem MetaTable.lookup_register_self_isSome (t : MetaTable) (v : Value) :
    (lookupId (t.register v).indices v.ty).isSome :=
  MetaTable.lookup_registerRaw_self_isSome t v.ty (Fat.from_ptr (Value.cast v))

theorem MetaTable.register_preserves (t : MetaTable) (v : Value)
    (h : t.Inv ∧ t.Rev ∧ t.FatOk) :
    (t.register v).Inv ∧ (t.register v).Rev ∧ (t.register v).FatOk :=
  ⟨MetaTable.Inv_registerRaw t v.ty (Fat.from_ptr (Value.cast v)) h.1,
    MetaTable.Rev_registerRaw t v.ty (Fat.from_ptr (Value.cast v)) h.1 h.2.1,
    MetaTable.FatOk_registerRaw t v.ty (Fat.from_ptr (Value.cast v)) h.1 h.2.1
      h.2.2 rfl⟩

theorem MetaTable.fold_register_props (vs : List Value) :
    ∀ t : MetaTable, t.Inv ∧ t.Rev ∧ t.FatOk →
      (vs.foldl (fun t v => t.register v) t).Inv ∧
        (vs.foldl (fun t v => t.register v) t).Rev ∧
        (vs.foldl (fun t v => t.register v) t).FatOk := by
  induction vs with
  | nil => intro t h; exact h
  | cons v vs ih =>
    intro t h
    exact ih (t.register v) (MetaTable.register_preserves t v h)

theorem MetaTable.ofSamples_props (vs : List Value) :
    (MetaTable.ofSamples vs).Inv ∧ (MetaTable.ofSamples vs).Rev ∧
      (MetaTable.ofSamples vs).FatOk :=
  MetaTable.fold_register_props vs MetaTable.default
    ⟨MetaTable.Inv_default, MetaTable.Rev_default, MetaTable.FatOk_default⟩

theorem MetaTable.lookup_fold_register_isSome (vs : List Value) (ty : TypeId) :
    ∀ t : MetaTable, (ty ∈ vs.map Value.ty ∨ (lookupId t.indices ty).isSome) →
      (lookupId ((vs.foldl (fun t v => t.register v) t)).indices ty).isSome := by
  induction vs with
  | nil =>
    intro t h
    rcases h with h | h
    · simp at h
    · exact h
  | cons v vs ih =>
    intro t h
    apply ih (t.register v)
    rcases h with h | h
    · rw [List.map_cons, List.mem_cons] at h
      rcases h with h | h
      · right
        subst h
        exact MetaTable.lookup_register_self_isSome t v
      · left
        exact h
    · right
      obtain ⟨i, hi⟩ := Option.isSome_iff_exists.mp h
      rw [MetaTable.lookup_register_some t v ty i hi]
      rfl

theorem MetaTable.lookup_ofSamples_isSome (vs : List Value) (ty : TypeId)
    (h : ty ∈ vs.map Value.ty) :
    (lookupId (MetaTable.ofSamples vs).indices ty).isSome :=
  MetaTable.lookup_fold_register_isSome vs ty MetaTable.default (Or.inl h)

theorem MetaTable.lookup_fold_registerRaw_none (rs : List (TypeId × Fat)) (ty : TypeId) :
    ∀ t : MetaTable, ty ∉ rs.map Prod.fst → lookupId t.indices ty = none →
      lookupId ((rs.foldl (fun t p => t.registerRaw p.1 p.2) t)).indices ty = none := by
  induction rs with
  | nil => intro t _ h; exact h
  | cons p rs ih =>
    intro t hnm h
    rw [List.map_cons, List.mem_cons] at hnm
    push_neg at hnm
    refine ih (t.registerRaw p.1 p.2) hnm.2 ?_
    rw [MetaTable.lookup_registerRaw_ne t p.1 ty p.2 hnm.1]
    exact h

theorem MetaTable.lookup_ofList_none (rs : List (TypeId × Fat)) (ty : TypeId)
    (h : ty ∉ rs.map Prod.fst) :
    lookupId (MetaTable.ofList rs).indices ty = none :=
  MetaTable.lookup_fold_registerRaw_none rs ty MetaTable.default h rfl

/-! Lookup-to-`get` bridge lemmas. -/

theorem MetaTable.get_eq_of_lookup (t : MetaTable) (res : Value) (i : Nat)
    (hl : lookupId t.indices res.ty = some i)
    (hf : t.fat.getD i (Fat.mk 0) = Fat.mk (vtableOf res.ty)) :
    t.get res = some (TObj.mk res.data (vtableOf res.ty)) := by
  unfold MetaTable.get
  rw [hl, Option.map_some', hf]
  rfl

theorem MetaTable.get_mut_eq_of_lookup (t : MetaTable) (res : Value) (i : Nat)
    (hl : lookupId t.indices res.ty = some i)
    (hf : t.fat.getD i (Fat.mk 0) = Fat.mk (vtableOf res.ty)) :
    t.get_mut res = some (TObj.mk res.data (vtableOf res.ty)) := by
  unfold MetaTable.get_mut
  rw [hl, Option.map_some', hf]
  rfl

theorem MetaTable.get_none_of_lookup_none (t : MetaTable) (res : Value)
    (hl : lookupId t.indices res.ty = none) :
    t.get res = none ∧ t.get_mut res = none := by
  unfold MetaTable.get MetaTable.get_mut
  rw [hl]
  exact ⟨rfl, rfl⟩

theorem MetaTable.get_ofSamples_registered (vs : List Value) (res : Value)
    (h : res.ty ∈ vs.map Value.ty) :
    (MetaTable.ofSamples vs).get res = some (TObj.mk res.data (vtableOf res.ty)) ∧
      (MetaTable.ofSamples vs).get_mut res =
        some (TObj.mk res.data (vtableOf res.ty)) := by
  obtain ⟨i, hi⟩ :=
    Option.isSome_iff_exists.mp (MetaTable.lookup_ofSamples_isSome vs res.ty h)
  have hfat := (MetaTable.ofSamples_props vs).2.2 res.ty i hi
  exact ⟨MetaTable.get_eq_of_lookup _ res i hi hfat,
    MetaTable.get_mut_eq_of_lookup _ res i hi hfat⟩

/-- C1: for every concrete type registered in the table (from any sample) and
every value whose runtime type tag is that type, `get` and `get_mut` return a
present trait object carrying that value's data and its own type's vtable;
calling `method1` through the `get` result observes exactly the value's data
under its own type's implementation, calling `method2` through the `get_mut`
result rewrites exactly that value's data through its own type's
implementation, and the mutation is visible on a subsequent `get`. -/
theorem c1_get_get_mut_correct (vs : List Value) (res : Value) (iface : Interface)
    (x : Int) (h : res.ty ∈ vs.map Value.ty) :
    (MetaTable.ofSamples vs).get res = some (TObj.mk res.data (vtableOf res.ty)) ∧
    (MetaTable.ofSamples vs).get_mut res =
      some (TObj.mk res.data (vtableOf res.ty)) ∧
    (∀ o, (MetaTable.ofSamples vs).get res = some o →
      TObj.call1 iface o = iface.m1 (vtableOf res.ty) res.data) ∧
    (MetaTable.ofSamples vs).get_mut_call2 iface res x =
      some (Value.mk res.ty (iface.m2 (vtableOf res.ty) x res.data)) ∧
    (MetaTable.ofSamples vs).get
        (Value.mk res.ty (iface.m2 (vtableOf res.ty) x res.data)) =
      some (TObj.mk (iface.m2 (vtableOf res.ty) x res.data) (vtableOf res.ty)) := by
  have hg := MetaTable.get_ofSamples_registered vs res h
  refine ⟨hg.1, hg.2, ?_, ?_, ?_⟩
  · intro o ho
    rw [hg.1] at ho
    injection ho with ho2
    subst ho2
    rfl
  · unfold MetaTable.get_mut_call2
    rw [hg.2, Option.map_some']
    rfl
  · exact (MetaTable.get_ofSamples_registered vs
      (Value.mk res.ty (iface.m2 (vtableOf res.ty) x res.data)) h).1

theorem c1_get_get_mut_correct_witness :
    (MetaTable.ofSamples [Value.mk 1 3]).get (Value.mk 1 3) =
      some (TObj.mk 3 (vtableOf 1)) ∧
    (MetaTable.ofSamples [Value.mk 1 3]).get_mut (Value.mk 1 3) =
      some (TObj.mk 3 (vtableOf 1)) ∧
    TObj.call1 (Interface.mk (fun _ d => d) (fun _ x d => d + x))
      (TObj.mk 3 (vtableOf 1)) = 3 ∧
    (MetaTable.ofSamples [Value.mk 1 3]).get_mut_call2
        (Interface.mk (fun _ d => d) (fun _ x d => d + x)) (Value.mk 1 3) 5 =
      some (Value.mk 1 8) ∧
    (MetaTable.ofSamples [Value.mk 1 3]).get (Value.mk 1 8) =
      some (TObj.mk 8 (vtableOf 1)) := by
  have hall := c1_get_get_mut_correct [Value.mk 1 3] (Value.mk 1 3)
    (Interface.mk (fun _ d => d) (fun _ x d => d + x)) 5 (by decide)
  exact ⟨hall.1, hall.2.1, hall.2.2.1 (TObj.mk 3 (vtableOf 1)) hall.1,
    hall.2.2.2.1, hall.2.2.2.2⟩

/-- C3: registering the same type tag twice (with any two captured
witnesses, from any two samples) leaves exactly one entry for it in the
iteration list, its index binding is the one from the first registration,
the iteration list is unchanged by the second call, and the stored witness
at that index is the one from the latest registration. -/
theorem c3_reregister_overwrites_in_place (t : MetaTable) (ty : TypeId)
    (f1 f2 : Fat) (hInv : t.Inv) (hRev : t.Rev) :
    (((t.registerRaw ty f1).registerRaw ty f2).tys).count ty = 1 ∧
    lookupId ((t.registerRaw ty f1).registerRaw ty f2).indices ty =
      lookupId (t.registerRaw ty f1).indices ty ∧
    ((t.registerRaw ty f1).registerRaw ty f2).tys = (t.registerRaw ty f1).tys ∧
    ∀ i, lookupId ((t.registerRaw ty f1).registerRaw ty f2).indices ty = some i →
      ((t.registerRaw ty f1).registerRaw ty f2).fat.getD i (Fat.mk 0) = f2 := by
  have hInv1 : (t.registerRaw ty f1).Inv := MetaTable.Inv_registerRaw t ty f1 hInv
  have hRev1 : (t.registerRaw ty f1).Rev :=
    MetaTable.Rev_registerRaw t ty f1 hInv hRev
  obtain ⟨j, hj⟩ := Option.isSome_iff_exists.mp
    (MetaTable.lookup_registerRaw_self_isSome t ty f1)
  have hocc := MetaTable.registerRaw_occupied (t.registerRaw ty f1) ty f2 j hj
  have h4 := hRev1 ty j hj
  obtain ⟨hlt, heq⟩ := List.getElem?_eq_some.mp h4
  have hmem : ty ∈ (t.registerRaw ty f1).tys := by
    have hmem0 := List.getElem_mem hlt
    rw [heq] at hmem0
    exact hmem0
  refine ⟨?_, ?_, ?_, ?_⟩
  · rw [hocc]
    exact List.count_eq_one_of_mem hInv1.nodup hmem
  · rw [hocc]
  · rw [hocc]
  · intro i hi
    rw [hocc] at hi ⊢
    rw [hj] at hi
    injection hi with hi2
    subst hi2
    have hflt : j < (t.registerRaw ty f1).fat.length := by
      rw [hInv1.fat_tys]
      exact hlt
    exact getD_set_self _ _ _ _ hflt

theorem c3_reregister_overwrites_in_place_witness :
    (((MetaTable.default.registerRaw 7 (Fat.mk 1)).registerRaw 7
      (Fat.mk 2)).tys).count 7 = 1 ∧
    lookupId ((MetaTable.default.registerRaw 7 (Fat.mk 1)).registerRaw 7
      (Fat.mk 2)).indices 7 =
      lookupId (MetaTable.default.registerRaw 7 (Fat.mk 1)).indices 7 ∧
    ((MetaTable.default.registerRaw 7 (Fat.mk 1)).registerRaw 7
      (Fat.mk 2)).tys = (MetaTable.default.registerRaw 7 (Fat.mk 1)).tys ∧
    ((MetaTable.default.registerRaw 7 (Fat.mk 1)).registerRaw 7
      (Fat.mk 2)).fat.getD 0 (Fat.mk 0) = Fat.mk 2 := by
  have hall := c3_reregister_overwrites_in_place MetaTable.default 7
    (Fat.mk 1) (Fat.mk 2) MetaTable.Inv_default MetaTable.Rev_default
  exact ⟨hall.1, hall.2.1, hall.2.2.1, hall.2.2.2 0 (by decide)⟩

/-- C4: for a table built by any sequence of registrations not containing a
given type tag, `get` and `get_mut` on any value of that tag return `none`
(a normal absent result, not a panic — both functions are total). -/
theorem c4_unregistered_returns_none (rs : List (TypeId × Fat)) (res : Value)
    (h : res.ty ∉ rs.map Prod.fst) :
    (MetaTable.ofList rs).get res = none ∧
      (MetaTable.ofList rs).get_mut res = none :=
  MetaTable.get_none_of_lookup_none _ res (MetaTable.lookup_ofList_none rs res.ty h)

theorem c4_unregistered_returns_none_witness :
    (MetaTable.ofList [(2, Fat.mk 2)]).get (Value.mk 1 5) = none ∧
      (MetaTable.ofList [(2, Fat.mk 2)]).get_mut (Value.mk 1 5) = none :=
  c4_unregistered_returns_none [(2, Fat.mk 2)] (Value.mk 1 5) (by decide)

/-- C7 counterexample: the claim's clause that the shape check "happens at
registry construction, not per registration call" is false of the code.  A
registry obtained through the public `Default` impl undergoes no
construction-time check at all, and with a non-two-word reference shape
(three words here) the `assert_unsized` inside `Fat::from_ptr` fires during
the very first `register` call itself: the per-registration capture panics
(`none`). -/
theorem c7_shape_check_counterexample :
    MetaTable.register_sized 3 1 MetaTable.default (Value.mk 0 0) = none := by
  decide

/-- C7 (amended): `MetaTable::new` returns the empty registry exactly when
an interface reference is two machine words and fails immediately by
assertion otherwise; the same shape assertion also runs on every
registration call (`assert_unsized` inside `Fat::from_ptr`): with the
two-word shape `register` always succeeds and equals the unchecked
registration, and with any other shape every `register` call fails the
assertion, whatever the table and sample. -/
theorem c7_shape_checked_everywhere (rb ub rb2 ub2 : Nat) (t : MetaTable)
    (r : Value) (h1 : rb = 2 * ub) (h2 : rb2 ≠ 2 * ub2) :
    MetaTable.new rb ub = some MetaTable.default ∧
    MetaTable.default.fat = [] ∧ MetaTable.default.indices = [] ∧
    MetaTable.default.tys = [] ∧ MetaTable.new rb2 ub2 = none ∧
    MetaTable.register_sized rb ub t r = some (t.register r) ∧
    MetaTable.register_sized rb2 ub2 t r = none := by
  unfold MetaTable.new MetaTable.register_sized Fat.from_ptr_sized
  rw [if_pos h1, if_neg h2, if_pos h1, if_neg h2]
  exact ⟨rfl, rfl, rfl, rfl, rfl, rfl, rfl⟩

theorem c7_shape_checked_everywhere_witness :
    MetaTable.new 2 1 = some MetaTable.default ∧
    MetaTable.default.fat = [] ∧ MetaTable.default.indices = [] ∧
    MetaTable.default.tys = [] ∧ MetaTable.new 3 1 = none ∧
    MetaTable.register_sized 2 1 MetaTable.default (Value.mk 4 6) =
      some (MetaTable.default.register (Value.mk 4 6)) ∧
    MetaTable.register_sized 3 1 MetaTable.default (Value.mk 4 6) = none :=
  c7_shape_checked_everywhere 2 1 3 1 MetaTable.default (Value.mk 4 6) rfl
    (by decide)

/-- C8: the witness captured by `register` depends only on the sample's
concrete type: registering two samples of the same type from the same prior
state yields equal registries, hence identical behaviour of `get`,
`get_mut`, `iter` and `iter_mut`. -/
theorem c8_sample_data_discarded (t : MetaTable) (r1 r2 : Value)
    (h : r1.ty = r2.ty) :
    t.register r1 = t.register r2 ∧
    (∀ res, (t.register r1).get res = (t.register r2).get res) ∧
    (∀ res, (t.register r1).get_mut res = (t.register r2).get_mut res) ∧
    (∀ res, ((t.register r1).iter res).toList = ((t.register r2).iter res).toList) ∧
    (∀ res, ((t.register r1).iter_mut res).toList =
      ((t.register r2).iter_mut res).toList) := by
  have he : t.register r1 = t.register r2 := by
    unfold MetaTable.register Fat.from_ptr Value.cast
    rw [h]
  exact ⟨he, fun res => by rw [he], fun res => by rw [he], fun res => by rw [he],
    fun res => by rw [he]⟩

theorem c8_sample_data_discarded_witness :
    MetaTable.default.register (Value.mk 3 10) =
      MetaTable.default.register (Value.mk 3 20) ∧
    (MetaTable.default.register (Value.mk 3 10)).get (Value.mk 3 7) =
      (MetaTable.default.register (Value.mk 3 20)).get (Value.mk 3 7) ∧
    (MetaTable.default.register (Value.mk 3 10)).get_mut (Value.mk 3 7) =
      (MetaTable.default.register (Value.mk 3 20)).get_mut (Value.mk 3 7) ∧
    ((MetaTable.default.register (Value.mk 3 10)).iter [(3, 7)]).toList =
      ((MetaTable.default.register (Value.mk 3 20)).iter [(3, 7)]).toList ∧
    ((MetaTable.default.register (Value.mk 3 10)).iter_mut [(3, 7)]).toList =
      ((MetaTable.default.register (Value.mk 3 20)).iter_mut [(3, 7)]).toList := by
  have hall := c8_sample_data_discarded MetaTable.default (Value.mk 3 10)
    (Value.mk 3 20) rfl
  exact ⟨hall.1, hall.2.1 (Value.mk 3 7), hall.2.2.1 (Value.mk 3 7),
    hall.2.2.2.1 [(3, 7)], hall.2.2.2.2 [(3, 7)]⟩

/-- C9: the internal consistency invariant (`fat` and `tys` of equal length,
index map of the same size, no duplicate tag, index map inverting `tys`)
holds for the default table and for every table returned by `new`, and is
preserved by every `register` call (its body `registerRaw`, for any captured
witness); `get`, `get_mut`, `iter` and `iter_mut` take the table immutably
and are modelled as pure functions, so they leave it untouched by
construction. -/
theorem c9_invariant_established_preserved (t : MetaTable) (ty : TypeId)
    (f : Fat) (rb ub : Nat) (t2 : MetaTable) (hInv : t.Inv)
    (hnew : MetaTable.new rb ub = some t2) :
    MetaTable.default.Inv ∧ t2.Inv ∧ (t.registerRaw ty f).Inv := by
  refine ⟨MetaTable.Inv_default, ?_, MetaTable.Inv_registerRaw t ty f hInv⟩
  unfold MetaTable.new at hnew
  split at hnew
  · injection hnew with h3
    rw [← h3]
    exact MetaTable.Inv_default
  · exact Option.noConfusion hnew

theorem c9_invariant_established_preserved_witness :
    MetaTable.default.Inv ∧ MetaTable.default.Inv ∧
      (MetaTable.default.registerRaw 5 (Fat.mk 5)).Inv :=
  c9_invariant_established_preserved MetaTable.default 5 (Fat.mk 5) 2 1
    MetaTable.default MetaTable.Inv_default rfl

/-- C2: registering two distinct type tags in order X1 then X2 (with any
captured witnesses) and iterating over a store holding values of both yields
X1's reassembled trait object strictly before X2's, for `iter` and
`iter_mut` alike: the collected sequence is exactly the two items in
registration order. -/
theorem c2_iteration_registration_order (X1 X2 : TypeId) (f1 f2 : Fat)
    (res : Resources) (d1 d2 : Int) (hne : X1 ≠ X2)
    (h1 : get_mut_raw res X1 = some d1) (h2 : get_mut_raw res X2 = some d2) :
    (((MetaTable.default.registerRaw X1 f1).registerRaw X2 f2).iter res).toList =
      [f1.create_ptr d1, f2.create_ptr d2] ∧
    (((MetaTable.default.registerRaw X1 f1).registerRaw X2 f2).iter_mut
      res).toList = [f1.create_ptr d1, f2.create_ptr d2] := by
  have hl2 : lookupId (MetaTable.default.registerRaw X1 f1).indices X2 = none := by
    rw [MetaTable.lookup_registerRaw_ne MetaTable.default X1 X2 f1
      (fun hc => hne hc.symm)]
    rfl
  have ht : (MetaTable.default.registerRaw X1 f1).registerRaw X2 f2 =
      MetaTable.mk [f1, f2] [(X1, 0), (X2, 1)] [X1, X2] := by
    rw [MetaTable.registerRaw_vacant (MetaTable.default.registerRaw X1 f1) X2 f2 hl2]
    rw [MetaTable.registerRaw_vacant MetaTable.default X1 f1 rfl]
    rfl
  rw [ht]
  constructor
  · show MetaIter.toList (MetaIter.mk [f1, f2] 0 res [X1, X2]) =
      [f1.create_ptr d1, f2.create_ptr d2]
    rw [MetaIter.toList_present [f1, f2] 0 res [X1, X2] X1 d1 rfl h1]
    rw [MetaIter.toList_present [f1, f2] 1 res [X1, X2] X2 d2 rfl h2]
    rw [MetaIter.toList_exhausted (MetaIter.mk [f1, f2] 2 res [X1, X2])
      (Nat.le_refl 2)]
    rfl
  · show MetaIterMut.toList (MetaIterMut.mk [f1, f2] 0 res [X1, X2]) =
      [f1.create_ptr d1, f2.create_ptr d2]
    rw [MetaIterMut.mut_toList_present [f1, f2] 0 res [X1, X2] X1 d1 rfl h1]
    rw [MetaIterMut.mut_toList_present [f1, f2] 1 res [X1, X2] X2 d2 rfl h2]
    rw [MetaIterMut.mut_toList_exhausted (MetaIterMut.mk [f1, f2] 2 res [X1, X2])
      (Nat.le_refl 2)]
    rfl

theorem c2_iteration_registration_order_witness :
    (((MetaTable.default.registerRaw 1 (Fat.mk 1)).registerRaw 2
      (Fat.mk 2)).iter [(1, 3), (2, 4)]).toList =
      [(Fat.mk 1).create_ptr 3, (Fat.mk 2).create_ptr 4] ∧
    (((MetaTable.default.registerRaw 1 (Fat.mk 1)).registerRaw 2
      (Fat.mk 2)).iter_mut [(1, 3), (2, 4)]).toList =
      [(Fat.mk 1).create_ptr 3, (Fat.mk 2).create_ptr 4] :=
  c2_iteration_registration_order 1 2 (Fat.mk 1) (Fat.mk 2) [(1, 3), (2, 4)]
    3 4 (by decide) (by decide) (by decide)

/-- C5: when the cursor of either iterator stands on a registered type tag
for which the store holds no value, `next` behaves exactly as if started one
position further (so it skips silently without terminating: the whole
remaining sequence is unchanged), and in particular when the following
position holds a present type the call yields that type's trait object
rather than `none`. -/
theorem c5_skip_absent_types (fat : List Fat) (i : Nat) (res : Resources)
    (tys : List TypeId) (ty : TypeId)
    (h1 : tys[i]? = some ty) (h2 : get_mut_raw res ty = none) :
    MetaIter.next (MetaIter.mk fat i res tys) =
      MetaIter.next (MetaIter.mk fat (i + 1) res tys) ∧
    MetaIterMut.next (MetaIterMut.mk fat i res tys) =
      MetaIterMut.next (MetaIterMut.mk fat (i + 1) res tys) ∧
    MetaIter.toList (MetaIter.mk fat i res tys) =
      MetaIter.toList (MetaIter.mk fat (i + 1) res tys) ∧
    MetaIterMut.toList (MetaIterMut.mk fat i res tys) =
      MetaIterMut.toList (MetaIterMut.mk fat (i + 1) res tys) ∧
    (∀ ty2 d2, tys[i + 1]? = some ty2 → get_mut_raw res ty2 = some d2 →
      (MetaIter.next (MetaIter.mk fat i res tys)).1 =
        some ((fat.getD (i + 1) (Fat.mk 0)).create_ptr d2)) := by
  refine ⟨MetaIter.next_skip fat i res tys ty h1 h2,
    MetaIterMut.mut_next_skip fat i res tys ty h1 h2,
    MetaIter.toList_skip fat i res tys ty h1 h2,
    MetaIterMut.mut_toList_skip fat i res tys ty h1 h2, ?_⟩
  intro ty2 d2 h3 h4
  rw [MetaIter.next_skip fat i res tys ty h1 h2,
    MetaIter.next_present fat (i + 1) res tys ty2 d2 h3 h4]

theorem c5_skip_absent_types_witness :
    MetaIter.next (MetaIter.mk [Fat.mk 1, Fat.mk 2] 0 [(8, 9)] [7, 8]) =
      MetaIter.next (MetaIter.mk [Fat.mk 1, Fat.mk 2] 1 [(8, 9)] [7, 8]) ∧
    MetaIterMut.next (MetaIterMut.mk [Fat.mk 1, Fat.mk 2] 0 [(8, 9)] [7, 8]) =
      MetaIterMut.next (MetaIterMut.mk [Fat.mk 1, Fat.mk 2] 1 [(8, 9)] [7, 8]) ∧
    MetaIter.toList (MetaIter.mk [Fat.mk 1, Fat.mk 2] 0 [(8, 9)] [7, 8]) =
      MetaIter.toList (MetaIter.mk [Fat.mk 1, Fat.mk 2] 1 [(8, 9)] [7, 8]) ∧
    MetaIterMut.toList (MetaIterMut.mk [Fat.mk 1, Fat.mk 2] 0 [(8, 9)] [7, 8]) =
      MetaIterMut.toList (MetaIterMut.mk [Fat.mk 1, Fat.mk 2] 1 [(8, 9)] [7, 8]) ∧
    (MetaIter.next (MetaIter.mk [Fat.mk 1, Fat.mk 2] 0 [(8, 9)] [7, 8])).1 =
      some ((Fat.mk 2).create_ptr 9) := by
  have hall := c5_skip_absent_types [Fat.mk 1, Fat.mk 2] 0 [(8, 9)] [7, 8] 7
    (by decide) (by decide)
  exact ⟨hall.1, hall.2.1, hall.2.2.1, hall.2.2.2.1,
    hall.2.2.2.2 8 9 (by decide) (by decide)⟩

/-- C6: both `next` functions are total (the skipping self-recursion is
accepted by the termination checker with measure `tys.length - index`), a
call with the cursor past the registered-type list returns `none`, and the
collected sequence is finite, of length at most the number of registered
types not yet passed. -/
theorem c6_sequences_terminate (it1 : MetaIter) (it2 : MetaIterMut)
    (h1 : it1.tys.length ≤ it1.index) (h2 : it2.tys.length ≤ it2.index) :
    (MetaIter.next it1).1 = none ∧ (MetaIterMut.next it2).1 = none ∧
    (∀ jt : MetaIter, jt.toList.length ≤ jt.tys.length - jt.index) ∧
    (∀ jt : MetaIterMut, jt.toList.length ≤ jt.tys.length - jt.index) := by
  refine ⟨?_, ?_, MetaIter.toList_length, MetaIterMut.mut_toList_length⟩
  · rw [MetaIter.next_exhausted it1 h1]
  · rw [MetaIterMut.mut_next_exhausted it2 h2]

theorem c6_sequences_terminate_witness :
    (MetaIter.next (MetaIter.mk [] 0 [] [])).1 = none ∧
    (MetaIterMut.next (MetaIterMut.mk [] 0 [] [])).1 = none ∧
    (MetaIter.toList (MetaIter.mk [Fat.mk 1] 0 [] [5])).length ≤ 1 ∧
    (MetaIterMut.toList (MetaIterMut.mk [Fat.mk 1] 0 [] [5])).length ≤ 1 := by
  have hall := c6_sequences_terminate (MetaIter.mk [] 0 [] [])
    (MetaIterMut.mk [] 0 [] []) (by decide) (by decide)
  exact ⟨hall.1, hall.2.1, hall.2.2.1 (MetaIter.mk [Fat.mk 1] 0 [] [5]),
    hall.2.2.2 (MetaIterMut.mk [Fat.mk 1] 0 [] [5])⟩

/-- C10: the iterators are forward-only and fused: every `next` call leaves
the cursor strictly larger (by at least one), and after a call that returned
`none` (which only happens with the cursor already past the registered-type
list) every further call returns `none` again. -/
theorem c10_forward_only_fused (it1 : MetaIter) (it2 : MetaIterMut)
    (h1 : (MetaIter.next it1).1 = none) (h2 : (MetaIterMut.next it2).1 = none) :
    (∀ jt : MetaIter, jt.index < (MetaIter.next jt).2.index) ∧
    (∀ jt : MetaIterMut, jt.index < (MetaIterMut.next jt).2.index) ∧
    (MetaIter.next ((MetaIter.next it1).2)).1 = none ∧
    (MetaIterMut.next ((MetaIterMut.next it2).2)).1 = none := by
  refine ⟨fun jt => (MetaIter.next_spec jt).2.2.2.1,
    fun jt => (MetaIterMut.mut_next_spec jt).2.2.2.1, ?_, ?_⟩
  · have hs := MetaIter.next_spec it1
    have hlen : ((MetaIter.next it1).2).tys.length ≤ ((MetaIter.next it1).2).index := by
      rw [hs.2.2.1]
      exact Nat.le_of_lt (hs.2.2.2.2 h1)
    rw [MetaIter.next_exhausted _ hlen]
  · have hs := MetaIterMut.mut_next_spec it2
    have hlen : ((MetaIterMut.next it2).2).tys.length ≤
        ((MetaIterMut.next it2).2).index := by
      rw [hs.2.2.1]
      exact Nat.le_of_lt (hs.2.2.2.2 h2)
    rw [MetaIterMut.mut_next_exhausted _ hlen]

theorem c10_forward_only_fused_witness :
    0 < (MetaIter.next (MetaIter.mk [] 0 [] [])).2.index ∧
    0 < (MetaIterMut.next (MetaIterMut.mk [] 0 [] [])).2.index ∧
    (MetaIter.next ((MetaIter.next (MetaIter.mk [] 3 [] [])).2)).1 = none ∧
    (MetaIterMut.next ((MetaIterMut.next (MetaIterMut.mk [] 3 [] [])).2)).1 =
      none := by
  have hall := c10_forward_only_fused (MetaIter.mk [] 3 [] [])
    (MetaIterMut.mk [] 3 [] [])
    (by rw [MetaIter.next_exhausted (MetaIter.mk [] 3 [] []) (by decide)])
    (by rw [MetaIterMut.mut_next_exhausted (MetaIterMut.mk [] 3 [] []) (by decide)])
  exact ⟨hall.1 (MetaIter.mk [] 0 [] []), hall.2.1 (MetaIterMut.mk [] 0 [] []),
    hall.2.2.1, hall.2.2.2⟩
